import Mathlib

/-!
# Verification of the log-to-step normalization pipeline

Shallow embedding of the stream-state reducers, log parsers and server-side
log classifiers of the arena repository, together with proofs about the
behaviour of those functions.

The reducers live in the client hooks:
* src/app/hooks/useAgentStreamGoogle.ts  (namespace Google below);
* the Anthropic hook (useAgentStreamAnthropic)       (namespace Anthropic below);
* the by-endpoint hook's parseLog                    (namespace ByEndpoint below).

The server-side log classifiers live in
src/lib/loggers/anthropicLogger.ts, src/lib/loggers/openaiLogger.ts and
src/app/api/agent/logger.ts.

Conventions of the embedding:
* JavaScript numbers holding step offsets are embedded as Int (they can go
  negative); upstream step indices, which come from regex captures of digit
  sequences, are Nat.
* JavaScript string truthiness (used by guards such as payload.finalMessage
  and payload.message) is embedded by the predicate jsTruthy: a string field
  is truthy iff it is present and non-empty.
* The regex decomposition of a raw log line is represented structurally by
  RawShape: each constructor corresponds to one of the regex patterns of the
  parseLog functions; JSON.parse of an embedded argument payload is passed in
  as an explicit function (jparse) so that both the success and the failure
  path of the source can be analysed.
-/

/-- Argument payload attached to an action (ActionArgs / unknown in the
source): either a parsed JSON object, embedded as a flat field list, or the
raw unparsed text kept as an opaque string. -/
inductive ArgsVal where
  | obj (fields : List (String × String))
  | raw (s : String)
deriving DecidableEq

/-- BrowserStep from src/app/types/ChatFeed.ts (the messageId field is never
set by the reducers and is omitted). -/
structure BrowserStep where
  stepNumber : Nat
  text : String
  reasoning : String
  tool : String
  instruction : String
  actionArgs : Option ArgsVal := none
deriving DecidableEq

/-- Canonical parsed log event (AgentLog in the source): the result of
parseLog, consumed by the log-event reducer. -/
inductive AgentLog where
  | summary (step : Nat) (text : String)
  | thought (text : String)
  | action (step : Nat) (tool : String) (args : ArgsVal)
deriving DecidableEq

/-- AgentStreamState, the React state held by each hook.  Log entries are
kept as their message strings. -/
structure AgentStreamState where
  sessionId : Option String := none
  sessionUrl : Option String := none
  steps : List BrowserStep := []
  logs : List String := []
  isLoading : Bool := false
  isFinished : Bool := false
  error : Option String := none
  invokedTools : List String := []
deriving DecidableEq

/-- The hook state: the React state together with the mutable refs
(stepCounterRef, stepOffsetRef, finalMessageAddedRef) that the reducers
read and write. -/
structure HookState where
  state : AgentStreamState
  stepCounter : Nat := 1
  stepOffset : Int := 0
  finalMessageAdded : Option String := none
deriving DecidableEq

/-- Initial hook state of the Google hook (steps [], refs at their initial
values: stepCounterRef = 1, stepOffsetRef = 0, finalMessageAddedRef = null). -/
def initHook : HookState := { state := {} }

/-- JavaScript truthiness of an optional string field: present and
non-empty. -/
def jsTruthy : Option String → Bool
  | some s => s ≠ ""
  | none => false

/-- String.prototype.trim: leading and trailing whitespace removed
(embedded over the character list so that it is kernel-computable). -/
def jsTrim (s : String) : String :=
  ⟨((s.data.dropWhile Char.isWhitespace).reverse.dropWhile Char.isWhitespace).reverse⟩

/-- Display-step computation `Math.max(1, step - offset)` shared by the
summary and action branches. -/
def displayAt (off : Int) (step : Nat) : Nat := (max 1 ((step : Int) - off)).toNat

/-- findIndex followed by an in-place set when found, else an append of a
fresh element at the end: the update pattern used by the summary and action
merge rules. -/
def setFirstWhere (p : BrowserStep → Bool) (f : BrowserStep → BrowserStep)
    (missing : BrowserStep) : List BrowserStep → List BrowserStep
  | [] => [missing]
  | s :: rest => if p s then f s :: rest else s :: setFirstWhere p f missing rest

/-- Update of the last element of a list (the source maps over the list and
rewrites the entry at index length - 1). -/
def updateLast (f : BrowserStep → BrowserStep) : List BrowserStep → List BrowserStep
  | [] => []
  | [s] => [f s]
  | s :: rest => s :: updateLast f rest

namespace Google

/-- Offset re-basing of useAgentStreamGoogle: the offset is replaced by
step - 1 only when it is still 0, the Step list is still empty and the
upstream index exceeds 1. -/
def nextOffset (off : Int) (stepsEmpty : Bool) (step : Nat) : Int :=
  if off = 0 ∧ stepsEmpty = true ∧ 1 < step then (step : Int) - 1 else off

/-- Conditional text update of the summary merge rule: text/instruction are
rewritten only when the trimmed incoming text is non-empty and differs from
the existing trimmed text. -/
def summaryUpdate (text : String) (s : BrowserStep) : BrowserStep :=
  if jsTrim text ≠ "" ∧ jsTrim text ≠ jsTrim s.text
  then { s with text := text, instruction := text }
  else s

/-- The summary branch of the log reducer (useAgentStreamGoogle.ts, "log"
listener).  Returns the new hook state together with the display step
computed for the event. -/
def handleSummary (hs : HookState) (step : Nat) (text : String) : HookState × Nat :=
  let off := nextOffset hs.stepOffset hs.state.steps.isEmpty step
  let d := displayAt off step
  let steps' := setFirstWhere (fun s => s.stepNumber == d) (summaryUpdate text)
      { stepNumber := d, text := text, reasoning := "", tool := "MESSAGE", instruction := text }
      hs.state.steps
  ({ state := { hs.state with steps := steps' },
     stepCounter := d, stepOffset := off, finalMessageAdded := hs.finalMessageAdded }, d)

/-- The thought branch: with no Steps a placeholder step holding the thought
is created, otherwise the LAST step's reasoning is REPLACED by the thought
text. -/
def handleThought (hs : HookState) (t : String) : HookState :=
  if hs.state.steps.isEmpty then
    { hs with state := { hs.state with steps := hs.state.steps ++
        [{ stepNumber := hs.stepCounter, text := "", reasoning := t,
           tool := "MESSAGE", instruction := "" }] } }
  else
    { hs with state := { hs.state with
        steps := updateLast (fun s => { s with reasoning := t }) hs.state.steps } }

/-- Rewrite applied to every step whose number matches the action's display
step: tool and actionArgs are overwritten (with an identity short-circuit
when both already coincide). -/
def actionOverwrite (d : Nat) (tool : String) (args : ArgsVal) (s : BrowserStep) : BrowserStep :=
  if s.stepNumber ≠ d then s
  else if s.tool = tool ∧ s.actionArgs = some args then s
  else { s with tool := tool, actionArgs := some args }

/-- The action branch of the log reducer.  Returns the new hook state
together with the display step computed for the event. -/
def handleAction (hs : HookState) (step : Nat) (tool : String) (args : ArgsVal) :
    HookState × Nat :=
  let nextInvoked := if tool ∈ hs.state.invokedTools then hs.state.invokedTools
                     else hs.state.invokedTools ++ [tool]
  let off := nextOffset hs.stepOffset hs.state.steps.isEmpty step
  let d := displayAt off step
  let updated := hs.state.steps.map (actionOverwrite d tool args)
  let steps' :=
    if 0 < updated.length ∧ updated.any (fun s => s.stepNumber == d) = true then updated
    else hs.state.steps ++
      [{ stepNumber := d, text := "", reasoning := "", tool := tool,
         instruction := "", actionArgs := some args }]
  ({ state := { hs.state with steps := steps', invokedTools := nextInvoked },
     stepCounter := hs.stepCounter, stepOffset := off,
     finalMessageAdded := hs.finalMessageAdded }, d)

/-- One pass of the log reducer over an already-parsed event. -/
def applyAgentLog (hs : HookState) : AgentLog → HookState
  | .summary n t => (handleSummary hs n t).1
  | .thought t => handleThought hs t
  | .action n tool args => (handleAction hs n tool args).1

/-- Left fold of the reducer over a list of parsed events, in arrival
order. -/
def run (hs : HookState) (evs : List AgentLog) : HookState :=
  evs.foldl applyAgentLog hs

/-- The display step numbers computed for the summary/action events of a
stream, in arrival order (thought events carry no step index). -/
def displays (hs : HookState) : List AgentLog → List Nat
  | [] => []
  | .summary n t :: rest =>
      (handleSummary hs n t).2 :: displays (handleSummary hs n t).1 rest
  | .thought t :: rest => displays (handleThought hs t) rest
  | .action n tool args :: rest =>
      (handleAction hs n tool args).2 :: displays (handleAction hs n tool args).1 rest

end Google

/-- Kind test: summary and action events carry an upstream step index. -/
def AgentLog.isStepEvent : AgentLog → Bool
  | .summary _ _ => true
  | .action _ _ _ => true
  | .thought _ => false

/-- The upstream step index carried by a summary/action event (0 for
thoughts, which carry none). -/
def AgentLog.rawStep : AgentLog → Nat
  | .summary n _ => n
  | .action n _ _ => n
  | .thought _ => 0

/-- One element of the completion payload's messages array: either a plain
string or an object with an optional text field. -/
inductive MsgElem where
  | mstr (s : String)
  | mobj (text : Option String)
deriving DecidableEq

/-- The payload of the terminal done event, with the three fields consulted
by the final-message resolution. -/
structure DonePayload where
  finalMessage : Option String := none
  output : Option String := none
  messages : Option (List MsgElem) := none
deriving DecidableEq

/-- The text of the last element of a messages array (a plain string stands
for itself, an object contributes its text field). -/
def lastMessageText (msgs : List MsgElem) : Option String :=
  match msgs.getLast? with
  | some (.mstr s) => some s
  | some (.mobj t) => t
  | none => none

/-- Reverse scan of the existing Steps for the last one with tool MESSAGE
and truthy (non-empty) text. -/
def fallbackScan (steps : List BrowserStep) : Option String :=
  (steps.reverse.find? (fun s => s.tool == "MESSAGE" && s.text != "")).map
    (fun s => s.text)

namespace Google

/-- The payload part of the final-message derivation of the done listener:
finalMessage, then output, then the last element of a non-empty messages
array (each guarded by JavaScript truthiness). -/
def payloadFinal (p : DonePayload) : Option String :=
  if jsTruthy p.finalMessage = true then p.finalMessage
  else if jsTruthy p.output = true then p.output
  else match p.messages with
    | some msgs => if 0 < msgs.length then lastMessageText msgs else none
    | none => none

/-- Full final-message resolution: the payload derivation, and when that is
not truthy, the reverse scan of the existing Steps. -/
def resolveFinal (p : DonePayload) (steps : List BrowserStep) : Option String :=
  let fm := payloadFinal p
  if jsTruthy fm = true then fm else fallbackScan steps

/-- The done listener: resolve the final message and, when one was found
and differs from the last appended one, append the terminal Final Answer
step; the run is marked finished in every case. -/
def handleDone (hs : HookState) (p : DonePayload) : HookState :=
  match resolveFinal p hs.state.steps with
  | some m =>
      if m ≠ "" ∧ hs.finalMessageAdded ≠ some m then
        { hs with
          finalMessageAdded := some m,
          state := { hs.state with
            steps := hs.state.steps ++
              [{ stepNumber := hs.state.steps.length + 1, text := m, reasoning := "",
                 tool := "MESSAGE", instruction := "Final Answer" }],
            isFinished := true } }
      else { hs with state := { hs.state with isFinished := true } }
  | none => { hs with state := { hs.state with isFinished := true } }

/-- The generic transport-error message. -/
def errGeneric : String := "Connection lost. Please try again."

/-- The error message shown for an error event: payload.message when truthy,
else the generic message (also when the payload did not parse).  The outer
Option is parse success, the inner Option is presence of the message
field. -/
def errMessageOf : Option (Option String) → String
  | some (some m) => if m = "" then errGeneric else m
  | some none => errGeneric
  | none => errGeneric

/-- The error listener: only the error field and the isFinished flag are
written. -/
def handleError (hs : HookState) (p : Option (Option String)) : HookState :=
  { hs with state := { hs.state with error := some (errMessageOf p), isFinished := true } }

end Google

/-- The regex decomposition of one raw log line, represented structurally:
each constructor corresponds to one of the patterns recognised by the
parseLog functions (thought-emoji prefix, "Step N: text", "Executing step
N", "Found text block:", "Found function call: name [with args: text]",
JSON objects with a type discriminator), and other stands for every line
matching none of them. -/
inductive RawShape where
  | thoughtLine (t : String)
  | stepLine (n : Nat) (text : String)
  | execLine (n : Nat)
  | textBlockLine (t : String)
  | fnLine (name : String) (argsText : Option String)
  | jsonTextBlock (t : String)
  | jsonToolUse (name : String) (input : ArgsVal)
  | other
deriving DecidableEq

namespace Google

/-- parseLog of useAgentStreamGoogle.ts: thought lines, "Executing step N"
lines (summary with empty text) and "Found function call" lines (action at
the current step counter).  jparse stands for JSON.parse on the argument
text: on failure the raw text is kept as the action field of the args
object. -/
def parseLog (jparse : String → Option ArgsVal) (counter : Nat) :
    RawShape → Option AgentLog
  | .thoughtLine t => some (.thought t)
  | .execLine n => some (.summary n "")
  | .fnLine name argsText =>
      let jsonText := jsTrim (argsText.getD "")
      let args :=
        if jsonText = "" then ArgsVal.obj [("action", "")]
        else match jparse jsonText with
          | some a => a
          | none => ArgsVal.obj [("action", jsonText)]
      some (.action counter name args)
  | _ => none

end Google

namespace ByEndpoint

/-- parseLog of useAgentStreamByEndpoint: additionally recognises
"Step N: text" summary lines, and on JSON.parse failure keeps the raw text
itself as the argument value. -/
def parseLog (jparse : String → Option ArgsVal) (counter : Nat) :
    RawShape → Option AgentLog
  | .thoughtLine t => some (.thought t)
  | .stepLine n text => some (.summary n text)
  | .execLine n => some (.summary n "")
  | .fnLine name argsText =>
      let jsonText := jsTrim (argsText.getD "")
      let args :=
        if jsonText = "" then ArgsVal.obj []
        else match jparse jsonText with
          | some a => a
          | none => ArgsVal.raw jsonText
      some (.action counter name args)
  | _ => none

end ByEndpoint

namespace Anthropic

/-- Initial hook state of the Anthropic hook (stepCounterRef starts at 0
there; the finalMessageAdded field is unused by this hook). -/
def initHook : HookState := { state := {}, stepCounter := 0 }

/-- Offset re-basing of the Anthropic hook: unlike the Google hook there is
no `step > 1` guard, so the offset is step - 1 (an Int, possibly negative)
whenever it is still 0 and the Step list is still empty. -/
def nextOffset (off : Int) (stepsEmpty : Bool) (step : Nat) : Int :=
  if off = 0 ∧ stepsEmpty = true then (step : Int) - 1 else off

/-- The summary branch of the Anthropic log reducer: refs are updated
first, an event whose trimmed text is empty then leaves the Step list
untouched; otherwise the trimmed text is stored as the REASONING of the
step with the matching display number (updated only when it differs), or a
new step is created. -/
def handleSummary (hs : HookState) (step : Nat) (text : String) : HookState :=
  let off := nextOffset hs.stepOffset hs.state.steps.isEmpty step
  let d := displayAt off step
  let counter := max hs.stepCounter d
  let trimmed := jsTrim text
  if trimmed = "" then
    { hs with stepCounter := counter, stepOffset := off }
  else
    let steps' := setFirstWhere (fun s => s.stepNumber == d)
        (fun s => if trimmed ≠ s.reasoning then { s with reasoning := trimmed } else s)
        { stepNumber := d, text := "", reasoning := trimmed, tool := "MESSAGE",
          instruction := "" }
        hs.state.steps
    { hs with
      state := { hs.state with steps := steps' },
      stepCounter := counter, stepOffset := off }

/-- The thought branch of the Anthropic log reducer: the thought text is
APPENDED to the last step's reasoning, space-joined with any existing
reasoning; with no steps a fresh step 1 holding the thought is created. -/
def handleThought (hs : HookState) (t : String) : HookState :=
  if hs.state.steps.isEmpty then
    { hs with
      state := { hs.state with steps :=
        [{ stepNumber := 1, text := "", reasoning := t, tool := "MESSAGE",
           instruction := "" }] },
      stepCounter := max hs.stepCounter 1 }
  else
    { hs with state := { hs.state with
        steps := updateLast
          (fun s => { s with reasoning :=
            (if s.reasoning = "" then "" else s.reasoning ++ " ") ++ t })
          hs.state.steps } }

/-- The action branch of the Anthropic log reducer: tool and actionArgs of
the step with the matching display number are overwritten (no comparison
short-circuit here), or a new step is created. -/
def handleAction (hs : HookState) (step : Nat) (tool : String) (args : ArgsVal) :
    HookState :=
  let nextInvoked := if tool ∈ hs.state.invokedTools then hs.state.invokedTools
                     else hs.state.invokedTools ++ [tool]
  let off := nextOffset hs.stepOffset hs.state.steps.isEmpty step
  let d := displayAt off step
  let counter := max hs.stepCounter d
  let steps' := setFirstWhere (fun s => s.stepNumber == d)
      (fun s => { s with tool := tool, actionArgs := some args })
      { stepNumber := d, text := "", reasoning := "", tool := tool,
        instruction := "", actionArgs := some args }
      hs.state.steps
  { state := { hs.state with steps := steps', invokedTools := nextInvoked },
    stepCounter := counter, stepOffset := off,
    finalMessageAdded := hs.finalMessageAdded }

/-- One pass of the Anthropic log reducer over an already-parsed event. -/
def applyAgentLog (hs : HookState) : AgentLog → HookState
  | .summary n t => handleSummary hs n t
  | .thought t => handleThought hs t
  | .action n tool args => handleAction hs n tool args

end Anthropic

/-- One raw Stagehand log line as seen by createAnthropicLogger
(src/lib/loggers/anthropicLogger.ts), with the outcome of each of its
message-pattern tests carried structurally: isStepExecution with the
captured step/total pair, the Processing-block test with the result of the
embedded JSON extraction, the text-block, error, completion and metrics
substring tests. -/
structure AnthLine where
  category : String
  isStepExecution : Bool := false
  stepNums : Option (Nat × Nat) := none
  isProcessingBlock : Bool := false
  blockJson : Option ArgsVal := none
  isTextBlock : Bool := false
  isError : Bool := false
  isCompletion : Bool := false
deriving DecidableEq

/-- createAnthropicLogger: the events sent for one log line together with
the new value of the internal step counter.  A line whose category is not
"agent" is dropped before any pattern test.  A Processing-block line whose
JSON extraction fails falls through to the remaining tests, exactly as in
the source. -/
def createAnthropicLogger (counter : Nat) (line : AnthLine) : List String × Nat :=
  if line.category ≠ "agent" then ([], counter)
  else if line.isStepExecution = true then
    (["anthropic_step"], if line.stepNums.isSome then counter else counter + 1)
  else if line.isProcessingBlock = true ∧ line.blockJson.isSome then
    (["anthropic_step"], counter + 1)
  else if line.isTextBlock = true then (["anthropic_step"], counter + 1)
  else if line.isError = true then (["anthropic_step"], counter + 1)
  else if line.isCompletion = true then (["anthropic_step"], counter + 1)
  else ([], counter)

/-- One raw log line as seen by createOpenAILogger
(src/lib/loggers/openaiLogger.ts), with the outcome of each regex/pattern
test carried structurally. -/
structure OpenAILine where
  category : String
  stepNums : Option (Nat × Nat) := none
  reasoningText : Option String := none
  computerCall : Option (String × String) := none
  executingComputer : Option String := none
  functionCall : Option (String × String) := none
  messageText : Option String := none
  isFoundMessageBlock : Bool := false
  isErrorLine : Bool := false
  outputCallId : Option String := none
  isTechnical : Bool := false
  msgTrimNonempty : Bool := true
deriving DecidableEq

/-- createOpenAILogger: the events sent for one log line together with the
new value of the lastMessageText tracker.  A line whose category is not
"agent" is dropped before any pattern test. -/
def createOpenAILogger (lastMessage : Option String) (line : OpenAILine) :
    List String × Option String :=
  if line.category ≠ "agent" then ([], lastMessage)
  else if line.stepNums.isSome then (["step"], lastMessage)
  else if line.reasoningText.isSome then (["reasoning"], lastMessage)
  else if line.computerCall.isSome then (["tool"], lastMessage)
  else if line.executingComputer.isSome then (["tool_execution"], lastMessage)
  else if line.functionCall.isSome then (["tool"], lastMessage)
  else match line.messageText with
    | some t => (["message"], some t)
    | none =>
      if line.isFoundMessageBlock = true then ([], lastMessage)
      else if line.isErrorLine = true then (["agent_error"], lastMessage)
      else if line.outputCallId.isSome then ([], lastMessage)
      else if line.isTechnical = true then ([], lastMessage)
      else if line.msgTrimNonempty = true then (["log"], lastMessage)
      else ([], lastMessage)

/-- One raw log line as seen by createStagehandUserLogger
(src/app/api/agent/logger.ts), with the outcome of each substring/regex
test carried structurally. -/
structure SHLine where
  category : String
  isNavigation : Bool := false
  isClick : Bool := false
  isTyping : Bool := false
  isExtraction : Bool := false
  isWaiting : Bool := false
  isStepProgress : Bool := false
  isCompletion : Bool := false
  isKeyReasoning : Bool := false
  isError : Bool := false
  isFunctionCall : Bool := false
  isProcessingBlock : Bool := false
  isAnthropicTextBlock : Bool := false
  isTechnical : Bool := false
  blockJson : Option ArgsVal := none
deriving DecidableEq

/-- The options of createStagehandUserLogger. -/
structure SHOptions where
  forwardStepEvents : Bool := false
  providerTag : Option String := none
deriving DecidableEq

/-- createStagehandUserLogger: the events sent for one log line.  A line
whose category is not "agent" is dropped before any pattern test; otherwise
the forward decision combines the technical filter (suspended for the
anthropic and openai provider tags) with the disjunction of the content
tests, Processing-block lines with extractable JSON are sent as
processing_block events, and forwarded action lines additionally produce a
step event when forwardStepEvents is set. -/
def createStagehandUserLogger (opts : SHOptions) (line : SHLine) : List String :=
  if line.category ≠ "agent" then []
  else
    let forwardAll := opts.providerTag = some "anthropic" ∨ opts.providerTag = some "openai"
    let shouldForward := (forwardAll ∨ line.isTechnical = false) ∧
      (line.isNavigation = true ∨ line.isClick = true ∨ line.isTyping = true ∨
       line.isExtraction = true ∨ line.isWaiting = true ∨ line.isStepProgress = true ∨
       line.isCompletion = true ∨ line.isKeyReasoning = true ∨ line.isError = true ∨
       line.isFunctionCall = true ∨ line.isProcessingBlock = true ∨
       line.isAnthropicTextBlock = true)
    if ¬ shouldForward then []
    else if line.isProcessingBlock = true ∧ line.blockJson.isSome then ["processing_block"]
    else if opts.forwardStepEvents = true ∧
        (line.isNavigation = true ∨ line.isClick = true ∨ line.isTyping = true ∨
         line.isExtraction = true ∨ line.isWaiting = true ∨ line.isStepProgress = true)
    then ["log", "step"]
    else ["log"]

/-! ## Basic lemmas about the list helpers -/

lemma isEmpty_eq_false_of_ne_nil {l : List BrowserStep} (h : l ≠ []) :
    l.isEmpty = false := by
  cases l with
  | nil => exact absurd rfl h
  | cons a t => rfl

lemma setFirstWhere_ne_nil (p : BrowserStep → Bool) (f : BrowserStep → BrowserStep)
    (missing : BrowserStep) (l : List BrowserStep) : setFirstWhere p f missing l ≠ [] := by
  cases l with
  | nil => simp [setFirstWhere]
  | cons s rest =>
    simp only [setFirstWhere]
    split <;> simp

lemma updateLast_cons_cons (f : BrowserStep → BrowserStep) (a b : BrowserStep)
    (rest : List BrowserStep) :
    updateLast f (a :: b :: rest) = a :: updateLast f (b :: rest) := rfl

lemma updateLast_append_singleton (f : BrowserStep → BrowserStep)
    (l : List BrowserStep) (s : BrowserStep) :
    updateLast f (l ++ [s]) = l ++ [f s] := by
  induction l with
  | nil => simp [updateLast]
  | cons a t ih =>
    cases t with
    | nil => simp [updateLast]
    | cons b u =>
      simp only [List.cons_append] at ih ⊢
      rw [updateLast_cons_cons, ih]

lemma updateLast_length (f : BrowserStep → BrowserStep) (l : List BrowserStep) :
    (updateLast f l).length = l.length := by
  induction l with
  | nil => rfl
  | cons a t ih =>
    cases t with
    | nil => rfl
    | cons b u => simpa [updateLast_cons_cons] using ih

/-! ## C9: non-agent lines are dropped by every logger -/

/-- Claim C9: every raw log line whose category is not "agent" is dropped
unconditionally by each of the three provider loggers — the send callback
is never invoked and no event of any kind is emitted. -/
theorem loggers_drop_non_agent (c : Nat) (lm : Option String) (opts : SHOptions)
    (a : AnthLine) (o : OpenAILine) (s : SHLine)
    (ha : a.category ≠ "agent") (ho : o.category ≠ "agent")
    (hsh : s.category ≠ "agent") :
    (createAnthropicLogger c a).1 = [] ∧ (createOpenAILogger lm o).1 = [] ∧
      createStagehandUserLogger opts s = [] := by
  refine ⟨?_, ?_, ?_⟩
  · simp [createAnthropicLogger, ha]
  · simp [createOpenAILogger, ho]
  · simp [createStagehandUserLogger, hsh]

/-- Witness for C9 at a concrete browser-category line. -/
theorem loggers_drop_non_agent_wit :
    (createAnthropicLogger 0 { category := "browser" }).1 = [] ∧
    (createOpenAILogger none { category := "browser" }).1 = [] ∧
    createStagehandUserLogger {} { category := "browser" } = [] :=
  loggers_drop_non_agent 0 none {} { category := "browser" }
    { category := "browser" } { category := "browser" }
    (by decide) (by decide) (by decide)

/-! ## C10: the error handler only touches error and isFinished -/

/-- Claim C10 (counterexample): a parseable error payload whose message
field is the empty string yields the generic connection-lost message, not
the payload's message. -/
theorem google_error_empty_message_counterexample :
    (Google.handleError initHook (some (some ""))).state.error
        = some "Connection lost. Please try again." ∧
    ¬ ((Google.handleError initHook (some (some ""))).state.error = some "") := by
  decide

/-- Claim C10 (amended): processing a transport error event changes only
the error field — set to the payload's message when that is a non-empty
string, and to the generic message otherwise (payload absent, unparseable,
or message missing or empty) — and the isFinished flag; steps, logs,
invokedTools, sessionId, sessionUrl and the refs are unchanged. -/
theorem google_error_frame (hs : HookState) (p : Option (Option String)) :
    (Google.handleError hs p).state.steps = hs.state.steps ∧
    (Google.handleError hs p).state.logs = hs.state.logs ∧
    (Google.handleError hs p).state.invokedTools = hs.state.invokedTools ∧
    (Google.handleError hs p).state.sessionId = hs.state.sessionId ∧
    (Google.handleError hs p).state.sessionUrl = hs.state.sessionUrl ∧
    (Google.handleError hs p).state.isLoading = hs.state.isLoading ∧
    (Google.handleError hs p).stepCounter = hs.stepCounter ∧
    (Google.handleError hs p).stepOffset = hs.stepOffset ∧
    (Google.handleError hs p).finalMessageAdded = hs.finalMessageAdded ∧
    (Google.handleError hs p).state.isFinished = true ∧
    (∀ m, m ≠ "" → (Google.handleError hs (some (some m))).state.error = some m) ∧
    (Google.handleError hs none).state.error = some Google.errGeneric ∧
    (Google.handleError hs (some none)).state.error = some Google.errGeneric ∧
    (Google.handleError hs (some (some ""))).state.error = some Google.errGeneric := by
  refine ⟨rfl, rfl, rfl, rfl, rfl, rfl, rfl, rfl, rfl, rfl, ?_, rfl, rfl, ?_⟩
  · intro m hm
    simp [Google.handleError, Google.errMessageOf, hm]
  · simp [Google.handleError, Google.errMessageOf]

/-- Witness for C10 at a concrete state and payload. -/
theorem google_error_frame_wit :
    (Google.handleError initHook (some (some "boom"))).state.error = some "boom" ∧
    (Google.handleError initHook (some (some "boom"))).state.steps = [] := by
  obtain ⟨h1, -, -, -, -, -, -, -, -, -, h11, -⟩ :=
    google_error_frame initHook (some (some "boom"))
  exact ⟨h11 "boom" (by decide), h1⟩

/-! ## Counterexamples computed on concrete event streams -/

/-- Claim C2 (counterexample): after the re-based summaries for upstream
steps 2 and 4 (display steps 1 and 3), the final-answer append chooses
stepNumber length + 1 = 3 without an existence check, producing two Steps
numbered 3 in one run. -/
theorem google_final_answer_duplicates_stepNumber :
    ((Google.handleDone (Google.run initHook [.summary 2 "a", .summary 4 "b"])
        { finalMessage := some "fin" }).state.steps.map (fun s => s.stepNumber))
      = [1, 3, 3] ∧
    ¬ (((Google.handleDone (Google.run initHook [.summary 2 "a", .summary 4 "b"])
        { finalMessage := some "fin" }).state.steps.map (fun s => s.stepNumber)).Nodup) := by
  decide

/-- Claim C3 (counterexample): in the Google reducer a thought event
REPLACES the last Step's reasoning, so two consecutive thoughts "a" and "b"
leave reasoning "b", not the space-joined "a b". -/
theorem google_thought_replaces_reasoning :
    ((Google.run initHook [.summary 1 "s", .thought "a", .thought "b"]).state.steps.map
        (fun s => s.reasoning)) = ["b"] ∧ ("b" : String) ≠ "a b" := by
  decide

/-- Claim C4 (counterexample): a second completion signal resolving to a
DIFFERENT final text passes the value-compared guard and appends a second
terminal Final Answer step. -/
theorem google_second_final_text_appends_again :
    ((Google.handleDone (Google.handleDone initHook { finalMessage := some "a" })
        { finalMessage := some "b" }).state.steps.filter
        (fun s => s.instruction == "Final Answer")).length = 2 := by
  decide

/-- Claim C6 (counterexample): a summary whose trimmed text is empty
differs from the existing trimmed text "hello", yet text/instruction are
NOT updated — the code additionally requires the incoming trimmed text to
be non-empty. -/
theorem google_summary_empty_text_not_updated :
    jsTrim "" ≠ jsTrim "hello" ∧
    ((Google.applyAgentLog (Google.run initHook [.summary 1 "hello"])
        (.summary 1 "")).state.steps.map (fun s => s.text)) = ["hello"] := by
  decide

/-- Claim C8 (counterexample): on JSON.parse failure the Google parseLog
wraps the raw text as the action field of an args OBJECT, so the resulting
actionArgs is not the raw string itself. -/
theorem google_parse_fallback_wraps_raw :
    Google.parseLog (fun _ => none) 1 (.fnLine "click" (some "\x7bx:"))
        = some (.action 1 "click" (.obj [("action", "\x7bx:")])) ∧
    ArgsVal.obj [("action", "\x7bx:")] ≠ ArgsVal.raw "\x7bx:" := by
  decide

/-! ## C1: step-offset re-basing -/

lemma updateLast_ne_nil (f : BrowserStep → BrowserStep) {l : List BrowserStep}
    (h : l ≠ []) : updateLast f l ≠ [] := by
  intro hc
  apply h
  have hl := updateLast_length f l
  rw [hc] at hl
  exact List.length_eq_zero.mp hl.symm

lemma google_run_cons (hs : HookState) (e : AgentLog) (l : List AgentLog) :
    Google.run hs (e :: l) = Google.run (Google.applyAgentLog hs e) l := rfl

lemma google_nextOffset_of_nonEmpty (off : Int) (n : Nat) :
    Google.nextOffset off false n = off := by
  simp [Google.nextOffset]

lemma google_handleSummary_snd (hs : HookState) (n : Nat) (t : String)
    (he : hs.state.steps.isEmpty = false) :
    (Google.handleSummary hs n t).2 = displayAt hs.stepOffset n := by
  simp [Google.handleSummary, Google.nextOffset, he]

lemma google_handleAction_snd (hs : HookState) (n : Nat) (tool : String) (args : ArgsVal)
    (he : hs.state.steps.isEmpty = false) :
    (Google.handleAction hs n tool args).2 = displayAt hs.stepOffset n := by
  simp [Google.handleAction, Google.nextOffset, he]

lemma google_applyAgentLog_inv (hs : HookState) (ev : AgentLog)
    (h2 : hs.state.steps ≠ []) :
    (Google.applyAgentLog hs ev).stepOffset = hs.stepOffset ∧
    (Google.applyAgentLog hs ev).state.steps ≠ [] := by
  have he : hs.state.steps.isEmpty = false := isEmpty_eq_false_of_ne_nil h2
  cases ev with
  | summary n t =>
    refine ⟨?_, ?_⟩
    · simp [Google.applyAgentLog, Google.handleSummary, Google.nextOffset, he]
    · simpa [Google.applyAgentLog, Google.handleSummary] using
        setFirstWhere_ne_nil _ _ _ hs.state.steps
  | thought t =>
    refine ⟨?_, ?_⟩
    · simp [Google.applyAgentLog, Google.handleThought, he]
    · simpa [Google.applyAgentLog, Google.handleThought, he] using
        updateLast_ne_nil (fun s => { s with reasoning := t }) h2
  | action n tool args =>
    refine ⟨?_, ?_⟩
    · simp [Google.applyAgentLog, Google.handleAction, Google.nextOffset, he]
    · simp only [Google.applyAgentLog, Google.handleAction]
      split
      · simpa [List.map_eq_nil_iff] using h2
      · simp

lemma google_run_inv (l : List AgentLog) :
    ∀ hs : HookState, hs.state.steps ≠ [] →
      (Google.run hs l).stepOffset = hs.stepOffset ∧
      (Google.run hs l).state.steps ≠ [] := by
  induction l with
  | nil => exact fun hs h2 => ⟨rfl, h2⟩
  | cons e rest ih =>
    intro hs h2
    obtain ⟨ho, hne⟩ := google_applyAgentLog_inv hs e h2
    obtain ⟨ho', hne'⟩ := ih (Google.applyAgentLog hs e) hne
    exact ⟨by rw [google_run_cons, ho', ho], by rw [google_run_cons]; exact hne'⟩

lemma google_displays_inv (k : Nat) (l : List AgentLog) :
    ∀ hs : HookState, hs.stepOffset = (k : Int) - 1 → hs.state.steps ≠ [] →
      (∀ e ∈ l, e.isStepEvent = true) →
      Google.displays hs l = l.map (fun e => displayAt ((k : Int) - 1) e.rawStep) := by
  induction l with
  | nil => intro hs _ _ _; rfl
  | cons e rest ih =>
    intro hs h1 h2 h3
    have he : hs.state.steps.isEmpty = false := isEmpty_eq_false_of_ne_nil h2
    have h3head := h3 e (List.mem_cons_self e rest)
    have h3tail : ∀ x ∈ rest, x.isStepEvent = true :=
      fun x hx => h3 x (List.mem_cons_of_mem e hx)
    obtain ⟨ho, hne⟩ := google_applyAgentLog_inv hs e h2
    cases e with
    | thought t => simp [AgentLog.isStepEvent] at h3head
    | summary n t =>
      have hd := google_handleSummary_snd hs n t he
      simp only [Google.displays, List.map_cons]
      rw [hd, h1, ih (Google.handleSummary hs n t).1 (by rw [← h1]; exact ho) hne h3tail]
      rfl
    | action n tool args =>
      have hd := google_handleAction_snd hs n tool args he
      simp only [Google.displays, List.map_cons]
      rw [hd, h1, ih (Google.handleAction hs n tool args).1 (by rw [← h1]; exact ho) hne h3tail]
      rfl

lemma displayAt_self (k : Nat) (_hk : 1 ≤ k) : displayAt ((k : Int) - 1) k = 1 := by
  unfold displayAt; omega

lemma displayAt_sub (k u : Nat) (hk : 1 ≤ k) (hu : k ≤ u) :
    displayAt ((k : Int) - 1) u = u - (k - 1) := by
  unfold displayAt; omega

lemma google_first_summary (n : Nat) (t : String) (hn : 1 ≤ n) :
    (Google.handleSummary initHook n t).1.stepOffset = (n : Int) - 1 ∧
    (Google.handleSummary initHook n t).1.state.steps ≠ [] ∧
    (Google.handleSummary initHook n t).2 = 1 := by
  have hoff : Google.nextOffset initHook.stepOffset initHook.state.steps.isEmpty n
      = (n : Int) - 1 := by
    by_cases h : 1 < n
    · simp [Google.nextOffset, initHook, h]
    · have hn1 : n = 1 := by omega
      subst hn1
      simp [Google.nextOffset, initHook]
  refine ⟨?_, ?_, ?_⟩
  · simp only [Google.handleSummary, hoff]
  · simpa [Google.handleSummary] using
      setFirstWhere_ne_nil _ _ _ initHook.state.steps
  · simp only [Google.handleSummary, hoff]
    exact displayAt_self n hn

lemma google_first_action (n : Nat) (tool : String) (args : ArgsVal) (hn : 1 ≤ n) :
    (Google.handleAction initHook n tool args).1.stepOffset = (n : Int) - 1 ∧
    (Google.handleAction initHook n tool args).1.state.steps ≠ [] ∧
    (Google.handleAction initHook n tool args).2 = 1 := by
  have hoff : Google.nextOffset initHook.stepOffset initHook.state.steps.isEmpty n
      = (n : Int) - 1 := by
    by_cases h : 1 < n
    · simp [Google.nextOffset, initHook, h]
    · have hn1 : n = 1 := by omega
      subst hn1
      simp [Google.nextOffset, initHook]
  refine ⟨?_, ?_, ?_⟩
  · simp only [Google.handleAction, hoff]
  · simp only [Google.handleAction, hoff]
    split
    · rename_i hcond
      exact absurd hcond (by simp [initHook])
    · simp
  · simp only [Google.handleAction, hoff]
    exact displayAt_self n hn

/-- Claim C1: the step offset is fixed at upstreamStepIndex - 1 by the
first summary/action event of the run and never recomputed; every
summary/action event's display step equals max(1, upstream - offset); for
an upstream sequence of summary/action events whose indices start at k >= 1
and stay >= k, the first display step is 1, every display step equals
upstream - (k - 1), and the display function is non-decreasing in the
upstream index. -/
theorem google_step_offset_rebasing (k : Nat) (hk : 1 ≤ k)
    (ev : AgentLog) (rest : List AgentLog)
    (hev : ev.isStepEvent = true) (hevk : ev.rawStep = k)
    (hrest : ∀ e ∈ rest, e.isStepEvent = true ∧ k ≤ e.rawStep) :
    (∀ n, 0 < n →
      (Google.run initHook ((ev :: rest).take n)).stepOffset = (k : Int) - 1) ∧
    Google.displays initHook (ev :: rest)
      = (ev :: rest).map (fun e => displayAt ((k : Int) - 1) e.rawStep) ∧
    Google.displays initHook (ev :: rest)
      = (ev :: rest).map (fun e => e.rawStep - (k - 1)) ∧
    (Google.displays initHook (ev :: rest)).head? = some 1 ∧
    (∀ u v : Nat, u ≤ v → displayAt ((k : Int) - 1) u ≤ displayAt ((k : Int) - 1) v) := by
  have hsub : ∀ e ∈ ev :: rest, k ≤ e.rawStep := by
    intro e hme
    rcases List.mem_cons.mp hme with h | h
    · subst h; omega
    · exact (hrest e h).2
  have hall : ∀ e ∈ ev :: rest, e.isStepEvent = true := by
    intro e hme
    rcases List.mem_cons.mp hme with h | h
    · subst h; exact hev
    · exact (hrest e h).1
  have key :
      (Google.applyAgentLog initHook ev).stepOffset = (k : Int) - 1 ∧
      (Google.applyAgentLog initHook ev).state.steps ≠ [] ∧
      Google.displays initHook (ev :: rest)
        = (ev :: rest).map (fun e => displayAt ((k : Int) - 1) e.rawStep) := by
    cases ev with
    | thought t => simp [AgentLog.isStepEvent] at hev
    | summary n t =>
      have hn : n = k := by simpa [AgentLog.rawStep] using hevk
      subst hn
      obtain ⟨ho, hne, hd⟩ := google_first_summary n t hk
      refine ⟨ho, hne, ?_⟩
      simp only [Google.displays, List.map_cons]
      rw [hd, google_displays_inv n rest _ ho hne (fun x hx => (hrest x hx).1)]
      rw [show (AgentLog.summary n t).rawStep = n from rfl, displayAt_self n hk]
    | action n tool args =>
      have hn : n = k := by simpa [AgentLog.rawStep] using hevk
      subst hn
      obtain ⟨ho, hne, hd⟩ := google_first_action n tool args hk
      refine ⟨ho, hne, ?_⟩
      simp only [Google.displays, List.map_cons]
      rw [hd, google_displays_inv n rest _ ho hne (fun x hx => (hrest x hx).1)]
      rw [show (AgentLog.action n tool args).rawStep = n from rfl, displayAt_self n hk]
  obtain ⟨hoff1, hne1, hdisp⟩ := key
  have hdispsub : Google.displays initHook (ev :: rest)
      = (ev :: rest).map (fun e => e.rawStep - (k - 1)) := by
    rw [hdisp]
    exact List.map_congr_left (fun e hme => displayAt_sub k e.rawStep hk (hsub e hme))
  refine ⟨?_, hdisp, hdispsub, ?_, ?_⟩
  · intro n hn
    obtain ⟨m, rfl⟩ : ∃ m, n = m + 1 := ⟨n - 1, by omega⟩
    rw [List.take_succ_cons, google_run_cons]
    obtain ⟨ho', -⟩ := google_run_inv (rest.take m) (Google.applyAgentLog initHook ev) hne1
    rw [ho', hoff1]
  · rw [hdispsub]
    simp only [List.map_cons, List.head?_cons, hevk]
    have h1 : k - (k - 1) = 1 := by omega
    rw [h1]
  · intro u v huv
    unfold displayAt
    omega

/-- Witness for C1: a stream whose upstream indices start at 3 is re-based
to display steps 1, 2, 3. -/
theorem google_step_offset_rebasing_wit :
    Google.displays initHook
      [.summary 3 "", .action 4 "click" (.obj []), .summary 5 ""] = [1, 2, 3] := by
  have h := google_step_offset_rebasing 3 (by decide) (.summary 3 "")
      [.action 4 "click" (.obj []), .summary 5 ""] (by decide) (by decide) (by decide)
  rw [h.2.2.1]
  decide

/-! ## C2: at most one Step per stepNumber -/

lemma setFirstWhere_map_stepNumber (d : Nat) (f : BrowserStep → BrowserStep)
    (missing : BrowserStep) (hf : ∀ s, (f s).stepNumber = s.stepNumber)
    (hm : missing.stepNumber = d) (l : List BrowserStep) :
    (setFirstWhere (fun s => s.stepNumber == d) f missing l).map (fun s => s.stepNumber)
      = if l.any (fun s => s.stepNumber == d)
        then l.map (fun s => s.stepNumber)
        else l.map (fun s => s.stepNumber) ++ [d] := by
  induction l with
  | nil => simp [setFirstWhere, hm]
  | cons s rest ih =>
    by_cases hp : s.stepNumber = d
    · simp [setFirstWhere, hp, hf]
    · have hps : (s.stepNumber == d) = false := by simp [hp]
      simp only [setFirstWhere, hps, Bool.false_eq_true, if_false, List.map_cons,
        List.any_cons, Bool.false_or, ih]
      split <;> rfl

lemma updateLast_map_stepNumber (f : BrowserStep → BrowserStep)
    (hf : ∀ s, (f s).stepNumber = s.stepNumber) (l : List BrowserStep) :
    (updateLast f l).map (fun s => s.stepNumber) = l.map (fun s => s.stepNumber) := by
  induction l with
  | nil => rfl
  | cons a t ih =>
    cases t with
    | nil => simp [updateLast, hf]
    | cons b u => simpa [updateLast_cons_cons] using ih

lemma actionOverwrite_stepNumber (d : Nat) (tool : String) (args : ArgsVal)
    (s : BrowserStep) :
    (Google.actionOverwrite d tool args s).stepNumber = s.stepNumber := by
  simp only [Google.actionOverwrite]
  split
  · rfl
  · split <;> rfl

lemma map_actionOverwrite_stepNumber (d : Nat) (tool : String) (args : ArgsVal)
    (l : List BrowserStep) :
    (l.map (Google.actionOverwrite d tool args)).map (fun s => s.stepNumber)
      = l.map (fun s => s.stepNumber) := by
  rw [List.map_map]
  exact List.map_congr_left (fun s _ => actionOverwrite_stepNumber d tool args s)

lemma nodup_append_singleton {l : List Nat} {d : Nat} (h : l.Nodup) (hd : d ∉ l) :
    (l ++ [d]).Nodup := by
  simp [List.nodup_append, h, hd]

/-- Claim C2 (amended): the at-most-one-Step-per-stepNumber invariant is
preserved by the summary, thought and action operations of the reducer;
the completion/final-answer append, which numbers the terminal step
length + 1 without an existence check, can violate it on sparse step lists
(see the counterexample). -/
theorem google_stepNumbers_nodup_preserved (hs : HookState) (ev : AgentLog)
    (h : (hs.state.steps.map (fun s => s.stepNumber)).Nodup) :
    (((Google.applyAgentLog hs ev).state.steps).map (fun s => s.stepNumber)).Nodup := by
  cases ev with
  | summary n t =>
    simp only [Google.applyAgentLog, Google.handleSummary]
    rw [setFirstWhere_map_stepNumber
      (displayAt (Google.nextOffset hs.stepOffset hs.state.steps.isEmpty n) n)
      (Google.summaryUpdate t)
      { stepNumber := displayAt (Google.nextOffset hs.stepOffset hs.state.steps.isEmpty n) n,
        text := t, reasoning := "", tool := "MESSAGE", instruction := t, actionArgs := none }
      (fun s => by
        simp only [Google.summaryUpdate]
        split <;> rfl) rfl hs.state.steps]
    split
    · exact h
    · rename_i hany
      refine nodup_append_singleton h ?_
      simp only [List.any_eq_true, beq_iff_eq, not_exists, not_and] at hany
      simp only [List.mem_map, not_exists, not_and]
      intro s hsmem
      exact fun hc => (hany s hsmem) hc
  | thought t =>
    simp only [Google.applyAgentLog, Google.handleThought]
    split
    · dsimp only
      cases hl : hs.state.steps with
      | nil => simp [hl]
      | cons a u =>
        rename_i hemp
        rw [hl] at hemp
        simp at hemp
    · dsimp only
      rw [updateLast_map_stepNumber (fun s => { s with reasoning := t }) (fun s => rfl)]
      exact h
  | action n tool args =>
    simp only [Google.applyAgentLog, Google.handleAction]
    split
    · rw [map_actionOverwrite_stepNumber]
      exact h
    · rename_i hcond
      rw [List.map_append]
      refine nodup_append_singleton h ?_
      by_cases hlen : 0 < hs.state.steps.length
      · have hany : ¬ ((hs.state.steps.map (Google.actionOverwrite
            (displayAt (Google.nextOffset hs.stepOffset hs.state.steps.isEmpty n) n)
            tool args)).any (fun s => s.stepNumber ==
              displayAt (Google.nextOffset hs.stepOffset hs.state.steps.isEmpty n) n)
            = true) := by
          intro hc
          exact hcond ⟨by simpa using hlen, hc⟩
        simp only [List.any_eq_true, beq_iff_eq, not_exists, not_and] at hany
        simp only [List.mem_map, not_exists, not_and]
        intro s hsmem hc
        refine hany (Google.actionOverwrite
            (displayAt (Google.nextOffset hs.stepOffset hs.state.steps.isEmpty n) n)
            tool args s) (List.mem_map_of_mem _ hsmem) ?_
        rw [actionOverwrite_stepNumber, hc]
      · have hl : hs.state.steps = [] := by
          cases hll : hs.state.steps with
          | nil => rfl
          | cons a u => rw [hll] at hlen; simp at hlen
        simp [hl]

/-- Witness for C2 at a concrete state satisfying the invariant. -/
theorem google_stepNumbers_nodup_preserved_wit :
    (((Google.applyAgentLog initHook (.summary 2 "a")).state.steps).map
        (fun s => s.stepNumber)).Nodup :=
  google_stepNumbers_nodup_preserved initHook (.summary 2 "a") (by decide)

/-! ## C3: thought accumulation -/

/-- Claim C3 (amended): in the ANTHROPIC reducer a thought event appends to
the last Step's reasoning, space-joined with any existing reasoning, and a
thought on an empty Step list synthesizes Step 1 with tool MESSAGE and the
thought as reasoning; in the Google reducer a thought instead REPLACES the
last Step's reasoning (see the counterexample). -/
theorem anthropic_thought_accumulates (hs : HookState) (t : String) :
    (∀ ini (s : BrowserStep), hs.state.steps = ini ++ [s] →
      (Anthropic.applyAgentLog hs (.thought t)).state.steps
        = ini ++ [{ s with reasoning :=
            (if s.reasoning = "" then "" else s.reasoning ++ " ") ++ t }]) ∧
    (hs.state.steps = [] →
      (Anthropic.applyAgentLog hs (.thought t)).state.steps
        = [{ stepNumber := 1, text := "", reasoning := t, tool := "MESSAGE",
             instruction := "", actionArgs := none }]) := by
  constructor
  · intro ini s hsteps
    have hne : hs.state.steps ≠ [] := by rw [hsteps]; simp
    have he := isEmpty_eq_false_of_ne_nil hne
    simp only [Anthropic.applyAgentLog, Anthropic.handleThought, he, Bool.false_eq_true,
      if_false]
    rw [hsteps, updateLast_append_singleton]
  · intro hsteps
    have he : hs.state.steps.isEmpty = true := by rw [hsteps]; rfl
    simp [Anthropic.applyAgentLog, Anthropic.handleThought, he]

/-- A concrete one-step state used as the C3 witness input. -/
def c3WitStep : BrowserStep :=
  { stepNumber := 1, text := "", reasoning := "r0", tool := "MESSAGE", instruction := "" }

/-- The C3 witness hook state holding c3WitStep. -/
def c3WitState : HookState :=
  { state := { steps := [c3WitStep] }, stepCounter := 1 }

/-- Witness for C3 at a concrete one-step state. -/
theorem anthropic_thought_accumulates_wit :
    (Anthropic.applyAgentLog c3WitState (.thought "more")).state.steps
      = [{ stepNumber := 1, text := "", reasoning := "r0 more", tool := "MESSAGE", instruction := "" }] := by
  have h := (anthropic_thought_accumulates c3WitState "more").1 [] c3WitStep rfl
  rw [h]
  decide

/-! ## C4: final-answer idempotence -/

/-- Claim C4 (amended): a second completion signal resolving to the SAME
final text is a no-op on the Step list (the last-appended-final-message
marker suppresses it); a second signal resolving to a DIFFERENT text passes
the value-compared guard and appends a second terminal step (see the
counterexample). -/
theorem google_final_answer_idempotent_same_text (hs : HookState) (m : String)
    (hm : m ≠ "") :
    (Google.handleDone (Google.handleDone hs { finalMessage := some m })
        { finalMessage := some m }).state.steps
      = (Google.handleDone hs { finalMessage := some m }).state.steps := by
  have hres : ∀ steps, Google.resolveFinal { finalMessage := some m } steps = some m := by
    intro steps
    simp [Google.resolveFinal, Google.payloadFinal, jsTruthy, hm]
  by_cases hadd : hs.finalMessageAdded = some m
  · simp [Google.handleDone, hres, hm, hadd]
  · simp [Google.handleDone, hres, hm, hadd]

/-- Witness for C4: the same final text twice at the initial state. -/
theorem google_final_answer_idempotent_same_text_wit :
    (Google.handleDone (Google.handleDone initHook { finalMessage := some "a" })
        { finalMessage := some "a" }).state.steps
      = (Google.handleDone initHook { finalMessage := some "a" }).state.steps :=
  google_final_answer_idempotent_same_text initHook "a" (by decide)

/-! ## C5: action overwrite semantics -/

lemma actionOverwrite_eq_of_num (d : Nat) (tool : String) (args : ArgsVal)
    (s : BrowserStep) (h : s.stepNumber = d) :
    Google.actionOverwrite d tool args s = { s with tool := tool, actionArgs := some args } := by
  rcases s with ⟨num, tx, rs, tl, ins, aa⟩
  simp only at h
  simp only [Google.actionOverwrite, h]
  split
  · omega
  · split
    · rename_i hsc
      obtain ⟨h1, h2⟩ := hsc
      simp_all
    · rfl

lemma actionOverwrite_eq_self_of_ne (d : Nat) (tool : String) (args : ArgsVal)
    (s : BrowserStep) (h : s.stepNumber ≠ d) :
    Google.actionOverwrite d tool args s = s := by
  simp [Google.actionOverwrite, h]

lemma google_handleAction_steps_ne_nil (hs : HookState) (u : Nat) (tool : String)
    (args : ArgsVal) : (Google.handleAction hs u tool args).1.state.steps ≠ [] := by
  simp only [Google.handleAction]
  split
  · rename_i hcond
    obtain ⟨hlen, -⟩ := hcond
    intro hc
    rw [hc] at hlen
    simp at hlen
  · simp

lemma google_handleAction_stepOffset (hs : HookState) (u : Nat) (tool : String)
    (args : ArgsVal) :
    (Google.handleAction hs u tool args).1.stepOffset
      = Google.nextOffset hs.stepOffset hs.state.steps.isEmpty u := rfl

lemma google_handleAction_mem_d (hs : HookState) (u : Nat) (tool : String)
    (args : ArgsVal) :
    ∃ s ∈ (Google.handleAction hs u tool args).1.state.steps,
      s.stepNumber = displayAt (Google.nextOffset hs.stepOffset hs.state.steps.isEmpty u) u := by
  simp only [Google.handleAction]
  split
  · rename_i hcond
    obtain ⟨-, hany⟩ := hcond
    obtain ⟨s, hsmem, hseq⟩ := List.any_eq_true.mp hany
    exact ⟨s, hsmem, by simpa using hseq⟩
  · exact ⟨_, List.mem_append_right _ (List.mem_singleton_self _), rfl⟩

lemma google_handleAction_getElem (hs : HookState) (u : Nat) (tool : String)
    (args : ArgsVal) (i : Nat) (hi : i < hs.state.steps.length) :
    ((Google.handleAction hs u tool args).1.state.steps)[i]?
      = some (Google.actionOverwrite
          (displayAt (Google.nextOffset hs.stepOffset hs.state.steps.isEmpty u) u)
          tool args hs.state.steps[i]) := by
  simp only [Google.handleAction]
  split
  · rw [List.getElem?_map, List.getElem?_eq_getElem hi]
    rfl
  · rename_i hcond
    rw [List.getElem?_append, if_pos hi, List.getElem?_eq_getElem hi]
    by_cases hnum : hs.state.steps[i].stepNumber
        = displayAt (Google.nextOffset hs.stepOffset hs.state.steps.isEmpty u) u
    · exfalso
      apply hcond
      refine ⟨by simpa using Nat.lt_of_le_of_lt (Nat.zero_le i) hi, ?_⟩
      refine List.any_eq_true.mpr ⟨Google.actionOverwrite _ tool args hs.state.steps[i],
        List.mem_map_of_mem _ (List.getElem_mem hi), ?_⟩
      rw [actionOverwrite_stepNumber]
      simpa using hnum
    · rw [actionOverwrite_eq_self_of_ne _ _ _ _ hnum]

lemma google_handleAction_members_d (hs : HookState) (u : Nat) (tool : String)
    (args : ArgsVal) :
    ∀ s ∈ (Google.handleAction hs u tool args).1.state.steps,
      s.stepNumber = displayAt (Google.nextOffset hs.stepOffset hs.state.steps.isEmpty u) u →
      s.tool = tool ∧ s.actionArgs = some args := by
  intro s hsmem hnum
  simp only [Google.handleAction] at hsmem
  split at hsmem
  · obtain ⟨s₀, hs₀mem, rfl⟩ := List.mem_map.mp hsmem
    rw [actionOverwrite_stepNumber] at hnum
    rw [actionOverwrite_eq_of_num _ _ _ _ hnum]
    exact ⟨rfl, rfl⟩
  · rename_i hcond
    rcases List.mem_append.mp hsmem with hmem | hmem
    · exfalso
      apply hcond
      refine ⟨?_, ?_⟩
      · have hne : hs.state.steps ≠ [] := List.ne_nil_of_mem hmem
        simpa [List.length_map] using List.length_pos.mpr hne
      · refine List.any_eq_true.mpr ⟨Google.actionOverwrite _ tool args s,
          List.mem_map_of_mem _ hmem, ?_⟩
        rw [actionOverwrite_stepNumber]
        simpa using hnum
    · have hse := List.eq_of_mem_singleton hmem
      subst hse
      exact ⟨rfl, rfl⟩

/-- Claim C5: an action event whose display step matches an existing Step
overwrites that Step's tool and actionArgs entirely (position-wise
characterization); when no Step matches, a fresh Step with empty
text/reasoning, the action's tool and its args is appended; consequently
after two actions for the same upstream step, every Step holding that
display number carries the SECOND action's tool and args. -/
theorem google_action_overwrite_latest (hs : HookState) (u : Nat)
    (tool₁ tool₂ : String) (a₁ a₂ : ArgsVal) :
    (∀ i (hi : i < hs.state.steps.length),
      (hs.state.steps[i].stepNumber
          = displayAt (Google.nextOffset hs.stepOffset hs.state.steps.isEmpty u) u →
        ((Google.handleAction hs u tool₁ a₁).1.state.steps)[i]?
          = some { hs.state.steps[i] with tool := tool₁, actionArgs := some a₁ }) ∧
      (hs.state.steps[i].stepNumber
          ≠ displayAt (Google.nextOffset hs.stepOffset hs.state.steps.isEmpty u) u →
        ((Google.handleAction hs u tool₁ a₁).1.state.steps)[i]?
          = some hs.state.steps[i])) ∧
    ((∀ s ∈ hs.state.steps,
        s.stepNumber ≠ displayAt (Google.nextOffset hs.stepOffset hs.state.steps.isEmpty u) u) →
      (Google.handleAction hs u tool₁ a₁).1.state.steps
        = hs.state.steps ++
          [{ stepNumber := displayAt (Google.nextOffset hs.stepOffset hs.state.steps.isEmpty u) u,
             text := "", reasoning := "", tool := tool₁, instruction := "",
             actionArgs := some a₁ }]) ∧
    (∀ s ∈ (Google.applyAgentLog (Google.applyAgentLog hs (.action u tool₁ a₁))
        (.action u tool₂ a₂)).state.steps,
      s.stepNumber = displayAt (Google.nextOffset hs.stepOffset hs.state.steps.isEmpty u) u →
      s.tool = tool₂ ∧ s.actionArgs = some a₂) := by
  refine ⟨?_, ?_, ?_⟩
  · intro i hi
    have hg := google_handleAction_getElem hs u tool₁ a₁ i hi
    constructor
    · intro hnum
      rw [hg, actionOverwrite_eq_of_num _ _ _ _ hnum]
    · intro hnum
      rw [hg, actionOverwrite_eq_self_of_ne _ _ _ _ hnum]
  · intro habs
    simp only [Google.handleAction]
    split
    · rename_i hcond
      exfalso
      obtain ⟨-, hany⟩ := hcond
      obtain ⟨s, hsmem, hseq⟩ := List.any_eq_true.mp hany
      obtain ⟨s₀, hs₀mem, rfl⟩ := List.mem_map.mp hsmem
      rw [actionOverwrite_stepNumber] at hseq
      exact habs s₀ hs₀mem (by simpa using hseq)
    · rfl
  · intro s hsmem hnum
    have hne1 := google_handleAction_steps_ne_nil hs u tool₁ a₁
    have he1 : (Google.handleAction hs u tool₁ a₁).1.state.steps.isEmpty = false :=
      isEmpty_eq_false_of_ne_nil hne1
    have hd2 : Google.nextOffset (Google.handleAction hs u tool₁ a₁).1.stepOffset
        (Google.handleAction hs u tool₁ a₁).1.state.steps.isEmpty u
        = Google.nextOffset hs.stepOffset hs.state.steps.isEmpty u := by
      rw [google_handleAction_stepOffset, he1, google_nextOffset_of_nonEmpty]
    refine google_handleAction_members_d (Google.applyAgentLog hs (.action u tool₁ a₁))
      u tool₂ a₂ s hsmem ?_
    show s.stepNumber = displayAt (Google.nextOffset
      (Google.handleAction hs u tool₁ a₁).1.stepOffset
      (Google.handleAction hs u tool₁ a₁).1.state.steps.isEmpty u) u
    rw [hd2]
    exact hnum

/-- Witness for C5: an action at upstream step 3 on an empty run creates
display step 1 with the action's tool and args, and a second action at the
same upstream step leaves the second action's tool and args. -/
theorem google_action_overwrite_latest_wit :
    (Google.handleAction initHook 3 "click" (.obj [("x", "1")])).1.state.steps
        = [{ stepNumber := 1, text := "", reasoning := "", tool := "click",
             instruction := "", actionArgs := some (.obj [("x", "1")]) }] ∧
    ∀ s ∈ (Google.applyAgentLog (Google.applyAgentLog initHook
        (.action 3 "click" (.obj [("x", "1")])))
        (.action 3 "type" (.obj [("y", "2")]))).state.steps,
      s.stepNumber = 1 → s.tool = "type" ∧ s.actionArgs = some (.obj [("y", "2")]) := by
  obtain ⟨-, h2, h3⟩ := google_action_overwrite_latest initHook 3 "click" "type"
    (.obj [("x", "1")]) (.obj [("y", "2")])
  constructor
  · rw [h2 (by simp [initHook])]
    decide
  · intro s hsmem hnum
    exact h3 s hsmem (by rw [hnum]; decide)

/-! ## C6: summary merge guard and idempotence -/

lemma summaryUpdate_stepNumber (text : String) (s : BrowserStep) :
    (Google.summaryUpdate text s).stepNumber = s.stepNumber := by
  simp only [Google.summaryUpdate]
  split <;> rfl

lemma summaryUpdate_idem (text : String) (s : BrowserStep) :
    Google.summaryUpdate text (Google.summaryUpdate text s) = Google.summaryUpdate text s := by
  by_cases hc : jsTrim text ≠ "" ∧ jsTrim text ≠ jsTrim s.text
  · have h1 : Google.summaryUpdate text s = { s with text := text, instruction := text } := by
      rw [Google.summaryUpdate, if_pos hc]
    rw [h1, Google.summaryUpdate, if_neg]
    intro hcontra
    exact hcontra.2 rfl
  · have h1 : Google.summaryUpdate text s = s := by
      rw [Google.summaryUpdate, if_neg hc]
    rw [h1, h1]

lemma setFirstWhere_eq_of_found (p : BrowserStep → Bool) (f : BrowserStep → BrowserStep)
    (missing : BrowserStep) (ini : List BrowserStep) (s : BrowserStep)
    (rest : List BrowserStep) (hini : ∀ x ∈ ini, p x = false) (hps : p s = true) :
    setFirstWhere p f missing (ini ++ s :: rest) = ini ++ f s :: rest := by
  induction ini with
  | nil => simp [setFirstWhere, hps]
  | cons a t ih =>
    have ha := hini a (List.mem_cons_self a t)
    have ih2 := ih (fun x hx => hini x (List.mem_cons_of_mem a hx))
    simp only [List.cons_append, setFirstWhere, ha, Bool.false_eq_true, if_false]
    exact congrArg (fun l => a :: l) ih2

lemma google_summaryMerge_idem (d : Nat) (text : String) (missing : BrowserStep)
    (hmt : missing.text = text) (hmn : missing.stepNumber = d) (l : List BrowserStep) :
    setFirstWhere (fun s => s.stepNumber == d) (Google.summaryUpdate text) missing
        (setFirstWhere (fun s => s.stepNumber == d) (Google.summaryUpdate text) missing l)
      = setFirstWhere (fun s => s.stepNumber == d) (Google.summaryUpdate text) missing l := by
  induction l with
  | nil =>
    simp only [setFirstWhere]
    rw [if_pos (by simp [hmn])]
    have hupd : Google.summaryUpdate text missing = missing := by
      rw [Google.summaryUpdate, if_neg]
      intro hcontra
      exact hcontra.2 (by rw [hmt])
    rw [hupd]
  | cons s rest ih =>
    by_cases hp : s.stepNumber = d
    · have hps : (s.stepNumber == d) = true := by simp [hp]
      simp only [setFirstWhere, hps, if_true]
      have hps2 : ((Google.summaryUpdate text s).stepNumber == d) = true := by
        simp [summaryUpdate_stepNumber, hp]
      simp only [setFirstWhere, hps2, if_true]
      rw [summaryUpdate_idem]
    · have hps : (s.stepNumber == d) = false := by simp [hp]
      simp only [setFirstWhere, hps, Bool.false_eq_true, if_false]
      rw [ih]

lemma google_applyAgentLog_summary (hs : HookState) (u : Nat) (t : String) :
    Google.applyAgentLog hs (.summary u t) = (Google.handleSummary hs u t).1 := rfl

lemma google_handleSummary_steps (hs : HookState) (u : Nat) (text : String) :
    (Google.handleSummary hs u text).1.state.steps
      = setFirstWhere (fun s => s.stepNumber ==
            displayAt (Google.nextOffset hs.stepOffset hs.state.steps.isEmpty u) u)
          (Google.summaryUpdate text)
          { stepNumber := displayAt (Google.nextOffset hs.stepOffset hs.state.steps.isEmpty u) u,
            text := text, reasoning := "", tool := "MESSAGE", instruction := text,
            actionArgs := none }
          hs.state.steps := rfl

lemma google_handleSummary_stepOffset (hs : HookState) (u : Nat) (text : String) :
    (Google.handleSummary hs u text).1.stepOffset
      = Google.nextOffset hs.stepOffset hs.state.steps.isEmpty u := rfl

/-- Claim C6 (amended): for a summary event whose display step matches an
existing Step (the first such Step), text and instruction are updated IF
AND ONLY IF the trimmed incoming text is NON-EMPTY and differs from the
existing trimmed text — the claim's condition lacks the non-emptiness
conjunct (see the counterexample); feeding the same summary twice is
idempotent on the Step list. -/
theorem google_summary_merge_guard (hs : HookState) (u : Nat) (text : String) :
    (∀ ini s rest, hs.state.steps = ini ++ s :: rest →
      (∀ x ∈ ini, x.stepNumber
          ≠ displayAt (Google.nextOffset hs.stepOffset hs.state.steps.isEmpty u) u) →
      s.stepNumber = displayAt (Google.nextOffset hs.stepOffset hs.state.steps.isEmpty u) u →
      (Google.handleSummary hs u text).1.state.steps
        = ini ++ (if jsTrim text ≠ "" ∧ jsTrim text ≠ jsTrim s.text
                  then { s with text := text, instruction := text }
                  else s) :: rest) ∧
    (Google.applyAgentLog (Google.applyAgentLog hs (.summary u text))
        (.summary u text)).state.steps
      = (Google.applyAgentLog hs (.summary u text)).state.steps := by
  constructor
  · intro ini s rest hsteps hini hnum
    rw [google_handleSummary_steps, hsteps]
    rw [hsteps] at hini hnum
    rw [setFirstWhere_eq_of_found _ _ _ ini s rest
      (fun x hx => by simpa using hini x hx) (by simpa using hnum)]
    rfl
  · have hneS : (Google.handleSummary hs u text).1.state.steps ≠ [] := by
      rw [google_handleSummary_steps]
      exact setFirstWhere_ne_nil _ _ _ hs.state.steps
    have heS := isEmpty_eq_false_of_ne_nil hneS
    have hd2 : Google.nextOffset (Google.handleSummary hs u text).1.stepOffset
        (Google.handleSummary hs u text).1.state.steps.isEmpty u
        = Google.nextOffset hs.stepOffset hs.state.steps.isEmpty u := by
      rw [google_handleSummary_stepOffset, heS, google_nextOffset_of_nonEmpty]
    rw [google_applyAgentLog_summary, google_applyAgentLog_summary]
    rw [google_handleSummary_steps (Google.handleSummary hs u text).1 u text, hd2,
      google_handleSummary_steps hs u text]
    exact google_summaryMerge_idem
      (displayAt (Google.nextOffset hs.stepOffset hs.state.steps.isEmpty u) u) text
      { stepNumber := displayAt (Google.nextOffset hs.stepOffset hs.state.steps.isEmpty u) u,
        text := text, reasoning := "", tool := "MESSAGE", instruction := text,
        actionArgs := none }
      rfl rfl hs.state.steps

/-- Witness for C6: updating the single matching step with a fresh
non-empty text, at a concrete state. -/
theorem google_summary_merge_guard_wit :
    (Google.handleSummary (Google.run initHook [.summary 1 "old"]) 1 "new").1.state.steps
      = [{ stepNumber := 1, text := "new", reasoning := "", tool := "MESSAGE", instruction := "new" }] := by
  have h := (google_summary_merge_guard (Google.run initHook [.summary 1 "old"]) 1 "new").1
    [] { stepNumber := 1, text := "old", reasoning := "", tool := "MESSAGE", instruction := "old" }
    [] (by decide) (by decide) (by decide)
  rw [h]
  decide

/-! ## C7: final-message resolution order -/

/-- A resolution attempt "yields a text" only when it produces a non-empty
string. -/
def nonEmptyText (o : Option String) : Option String :=
  o.bind (fun s => if s = "" then none else some s)

/-- The resolution order exactly as the specification words it: (a) the
explicit final-message field, (b) the output field, (c) the text of the
last element of the messages array, (d) the reverse scan of existing Steps
for the last MESSAGE step with non-empty text; each attempt yields only a
non-empty text. -/
def specResolveFinal (p : DonePayload) (steps : List BrowserStep) : Option String :=
  nonEmptyText p.finalMessage <|> nonEmptyText p.output <|>
    nonEmptyText (p.messages.bind lastMessageText) <|> nonEmptyText (fallbackScan steps)

lemma fallbackScan_nonEmpty (steps : List BrowserStep) :
    nonEmptyText (fallbackScan steps) = fallbackScan steps := by
  unfold fallbackScan
  cases hf : steps.reverse.find? (fun s => s.tool == "MESSAGE" && s.text != "") with
  | none => rfl
  | some s =>
    have hp := List.find?_some hf
    simp only [Bool.and_eq_true, beq_iff_eq, bne_iff_ne, ne_eq] at hp
    simp [nonEmptyText, hp.2]

lemma truthy_orElse (o : Option String) (g : Option String) :
    (if jsTruthy o = true then o else g) = (nonEmptyText o <|> g) := by
  cases o with
  | none => simp [jsTruthy, nonEmptyText]
  | some m =>
    by_cases hm : m = "" <;> simp [jsTruthy, nonEmptyText, hm]

lemma nonEmptyText_ite (o g : Option String) :
    nonEmptyText (if jsTruthy o = true then o else g)
      = (nonEmptyText o <|> nonEmptyText g) := by
  cases o with
  | none => simp [jsTruthy, nonEmptyText]
  | some m =>
    by_cases hm : m = "" <;> simp [jsTruthy, nonEmptyText, hm]

lemma nonEmptyText_payloadFinal (p : DonePayload) :
    nonEmptyText (Google.payloadFinal p)
      = (nonEmptyText p.finalMessage <|> (nonEmptyText p.output <|>
          nonEmptyText (p.messages.bind lastMessageText))) := by
  have hM : nonEmptyText (match p.messages with
      | some msgs => if 0 < msgs.length then lastMessageText msgs else none
      | none => none)
      = nonEmptyText (p.messages.bind lastMessageText) := by
    cases hms : p.messages with
    | none => rfl
    | some msgs =>
      cases msgs with
      | nil => simp [lastMessageText, nonEmptyText]
      | cons a t => simp
  unfold Google.payloadFinal
  rw [nonEmptyText_ite, nonEmptyText_ite, hM]

/-- Claim C7: the terminal final text is resolved by trying, in order, the
payload's explicit final-message field, its output field, the text of the
last element of its messages array, and finally a reverse scan of existing
Steps for the last MESSAGE step with non-empty text; when every method
fails the run is still marked finished and no terminal Step is appended. -/
theorem google_final_resolution_order (p : DonePayload) (steps : List BrowserStep)
    (hs : HookState) :
    Google.resolveFinal p steps = specResolveFinal p steps ∧
    (Google.resolveFinal p hs.state.steps = none →
      (Google.handleDone hs p).state.steps = hs.state.steps ∧
      (Google.handleDone hs p).state.isFinished = true) := by
  constructor
  · unfold Google.resolveFinal specResolveFinal
    rw [truthy_orElse, nonEmptyText_payloadFinal]
    cases nonEmptyText p.finalMessage with
    | some a => simp
    | none =>
      cases nonEmptyText p.output with
      | some b => simp
      | none =>
        cases nonEmptyText (p.messages.bind lastMessageText) with
        | some c => simp
        | none =>
          simp only [Option.none_orElse]
          exact (fallbackScan_nonEmpty steps).symm
  · intro hnone
    simp [Google.handleDone, hnone]

/-- Witness for C7: an empty payload with no prior MESSAGE steps resolves
to nothing; the run is finished with no step appended. -/
theorem google_final_resolution_order_wit :
    (Google.handleDone initHook {}).state.steps = [] ∧
    (Google.handleDone initHook {}).state.isFinished = true := by
  have h := (google_final_resolution_order {} [] initHook).2 (by decide)
  exact ⟨h.1.trans rfl, h.2⟩

/-! ## C8: parse-failure fallback -/

lemma google_handleAction_append_of_absent (hs : HookState) (u : Nat) (tool : String)
    (args : ArgsVal)
    (habs : ∀ s ∈ hs.state.steps, s.stepNumber
      ≠ displayAt (Google.nextOffset hs.stepOffset hs.state.steps.isEmpty u) u) :
    (Google.handleAction hs u tool args).1.state.steps
      = hs.state.steps ++
        [{ stepNumber := displayAt (Google.nextOffset hs.stepOffset hs.state.steps.isEmpty u) u,
           text := "", reasoning := "", tool := tool, instruction := "",
           actionArgs := some args }] := by
  simp only [Google.handleAction]
  split
  · rename_i hcond
    exfalso
    obtain ⟨-, hany⟩ := hcond
    obtain ⟨s, hsmem, hseq⟩ := List.any_eq_true.mp hany
    obtain ⟨s₀, hs₀mem, rfl⟩ := List.mem_map.mp hsmem
    rw [actionOverwrite_stepNumber] at hseq
    exact habs s₀ hs₀mem (by simpa using hseq)
  · rfl

/-- Claim C8 (amended): an action event whose embedded args payload fails
JSON parsing is not dropped — both parsers still produce an action carrying
the tool name; the byEndpoint parseLog keeps the raw trimmed text itself as
the argument value, while the Google parseLog wraps it as the action field
of an args object (see the counterexample); feeding such an action to the
reducer on a state with no matching step yields a Step with the tool set
and actionArgs equal to the fallback value. -/
theorem parse_fallback_keeps_raw_text (jparse : String → Option ArgsVal) (c : Nat)
    (name jtext : String) (hne : jsTrim jtext ≠ "")
    (hfail : jparse (jsTrim jtext) = none) :
    ByEndpoint.parseLog jparse c (.fnLine name (some jtext))
        = some (.action c name (.raw (jsTrim jtext))) ∧
    Google.parseLog jparse c (.fnLine name (some jtext))
        = some (.action c name (.obj [("action", jsTrim jtext)])) ∧
    (∀ hs : HookState, (∀ s ∈ hs.state.steps, s.stepNumber
        ≠ displayAt (Google.nextOffset hs.stepOffset hs.state.steps.isEmpty c) c) →
      (Google.handleAction hs c name (.raw (jsTrim jtext))).1.state.steps
        = hs.state.steps ++
          [{ stepNumber := displayAt (Google.nextOffset hs.stepOffset hs.state.steps.isEmpty c) c,
             text := "", reasoning := "", tool := name, instruction := "",
             actionArgs := some (.raw (jsTrim jtext)) }]) := by
  refine ⟨?_, ?_, ?_⟩
  · simp [ByEndpoint.parseLog, hne, hfail]
  · simp [Google.parseLog, hne, hfail]
  · intro hs habs
    exact google_handleAction_append_of_absent hs c name (.raw (jsTrim jtext)) habs

/-- Witness for C8: a concrete unparseable args text is kept as the raw
argument by the byEndpoint parser. -/
theorem parse_fallback_keeps_raw_text_wit :
    ByEndpoint.parseLog (fun _ => none) 1 (.fnLine "goto" (some "oops"))
      = some (.action 1 "goto" (.raw "oops")) := by
  have h := (parse_fallback_keeps_raw_text (fun _ => none) 1 "goto" "oops"
    (by decide) rfl).1
  rw [show jsTrim "oops" = "oops" from by decide] at h
  exact h
